import Mathlib

/-! Verification of the semantic-service indexing and search core.

Shallow embedding of `semantic_core` (chunking, ingest normalization,
indexing pipeline, Qdrant-backed vector store) together with theorems
settling the specification claims.

Python dictionaries are modelled as insertion-ordered association lists
(`Dict`), Python dynamic values as `PyVal`.  Third-party components
(the SHA-256 hex digest, the LangChain recursive splitter, `json.loads`,
BeautifulSoup extraction, UUID derivation, the similarity scoring of the
Qdrant server) are parameters of the definitions, so every theorem
holds for all of their behaviours; the store-side search post-processing
is modelled from the documented Qdrant client contract (results sorted
by descending score, at most `limit`, only filter-matching points).
-/

namespace SemanticCore

/-- A Python runtime value as it occurs in chunk / payload metadata. -/
inductive PyVal where
  | vStr (s : String)
  | vInt (n : Int)
  | vBool (b : Bool)
  | vNone
  | vDict (kvs : List (String × PyVal))

mutual
/-- Python `==` on `PyVal` (used by metadata filter matching). -/
def pvEq : PyVal → PyVal → Bool
  | .vStr a, .vStr b => a == b
  | .vInt a, .vInt b => a == b
  | .vBool a, .vBool b => a == b
  | .vNone, .vNone => true
  | .vDict a, .vDict b => pvEqList a b
  | _, _ => false

/-- Python `==` on dicts, pairwise over the (ordered) bindings. -/
def pvEqList : List (String × PyVal) → List (String × PyVal) → Bool
  | [], [] => true
  | (k, v) :: r, (k', v') :: r' => k == k' && pvEq v v' && pvEqList r r'
  | _, _ => false
end

/-- A Python `dict[str, Any]`: insertion-ordered association list. -/
abbrev Dict := List (String × PyVal)

/-- Python `d[k]` lookup (first binding wins; dicts built here are key-unique). -/
def dictGet : Dict → String → Option PyVal
  | [], _ => none
  | (k', v) :: rest, k => if k' = k then some v else dictGet rest k

/-- Python `d[k] = v`: update the existing binding in place, else append. -/
def dictSet : Dict → String → PyVal → Dict
  | [], k, v => [(k, v)]
  | (k', v') :: rest, k, v =>
      if k' = k then (k', v) :: rest else (k', v') :: dictSet rest k v

/-- Python `{**base, **extra}`: a fresh dict; the bindings of `extra`
win on collisions and neither input is modified. -/
def dictMerge (base extra : Dict) : Dict :=
  extra.foldl (fun acc kv => dictSet acc kv.1 kv.2) base

/-! ## Text canonicalization (`semantic_core/ingest/normalize.py`) -/

/-- The characters removed by the Python `str.strip()` method (ASCII whitespace). -/
def isPyWs (c : Char) : Bool :=
  c == ' ' || c == '\t' || c == '\n' || c == '\r' || c == '\x0b' || c == '\x0c'

/-- Model of `text.replace("\r\n", "\n")`, leftmost, non-overlapping. -/
def replaceCRLF : List Char → List Char
  | [] => []
  | '\r' :: '\n' :: rest => '\n' :: replaceCRLF rest
  | c :: rest => c :: replaceCRLF rest

/-- Model of `text.replace("\r\n", "\n").replace("\r", "\n")`. -/
def replaceCR (l : List Char) : List Char :=
  (replaceCRLF l).map (fun c => if c = '\r' then '\n' else c)

/-- Horizontal whitespace matched by the regex class `[ \t]`. -/
def isHWs (c : Char) : Bool := c == ' ' || c == '\t'

mutual
/-- Model of `re.sub(r"[ \t]+", " ", text)`: collapse runs of spaces/tabs. -/
def collapseHWs : List Char → List Char
  | [] => []
  | c :: rest => if isHWs c then ' ' :: skipHWs rest else c :: collapseHWs rest

/-- Inside a `[ \t]+` run: skip the remainder of the run. -/
def skipHWs : List Char → List Char
  | [] => []
  | c :: rest => if isHWs c then skipHWs rest else c :: collapseHWs rest
end

/-- Emit a run of `n` newlines, replaced by two when `n ≥ 3`
(the substitution `re.sub(r"\n{3,}", "\n\n", ·)` on a maximal run). -/
def emitNl (n : Nat) (tail : List Char) : List Char :=
  if 3 ≤ n then '\n' :: '\n' :: tail else List.replicate n '\n' ++ tail

mutual
/-- Model of `re.sub(r"\n{3,}", "\n\n", text)`: collapse runs of three or more newlines to two. -/
def collapseNl : List Char → List Char
  | [] => []
  | c :: rest => if c = '\n' then countNl rest 1 else c :: collapseNl rest

/-- Inside a newline run of current length `n`: extend it or emit it. -/
def countNl : List Char → Nat → List Char
  | [], n => emitNl n []
  | c :: rest, n =>
      if c = '\n' then countNl rest (n + 1) else emitNl n (c :: collapseNl rest)
end

/-- Python `s.strip()` on a character list. -/
def stripChars (l : List Char) : List Char :=
  ((l.dropWhile isPyWs).reverse.dropWhile isPyWs).reverse

/-- Python `s.strip()`. -/
def pyStrip (s : String) : String := ⟨stripChars s.data⟩

/-- Model of `normalize_text` from `semantic_core/ingest/normalize.py`:
normalize line endings, collapse `[ \t]+` to one space, collapse
`\n{3,}` to `\n\n`, then strip. -/
def normalize_text (s : String) : String :=
  ⟨stripChars (collapseNl (collapseHWs (replaceCR s.data)))⟩

/-! ## Data model (`semantic_core/models.py`) -/

/-- Model of `DocumentRef`: stable reference information about a logical document.
`created_at` is an opaque timestamp ordinal. -/
structure DocumentRef where
  doc_id : String
  source : String
  doc_type : String
  created_at : Int
  checksum : String
  extra : Dict := []

/-- Model of `NormalizedDocument`: canonical normalized representation. -/
structure NormalizedDocument where
  ref : DocumentRef
  text : String
  pages : Option (List String) := none

/-- Model of `Chunk`: a semantically meaningful span of a normalized document. -/
structure Chunk where
  chunk_id : String
  doc_id : String
  text : String
  metadata : Dict
  page_number : Option Int := none
  start_char : Option Int := none
  end_char : Option Int := none

/-- Model of `EmbeddedChunk`: a chunk paired with its embedding vector. -/
structure EmbeddedChunk where
  chunk : Chunk
  vector : List ℚ

/-- Model of `SearchQuery`: semantic search parameters. -/
structure SearchQuery where
  query : String
  top_k : Nat := 10
  min_score : Option ℚ := none
  filters : Dict := []

/-- Model of `SearchResult`: a single search hit returned from the vector store. -/
structure SearchResult where
  chunk_id : String
  doc_id : String
  score : ℚ
  text : String
  metadata : Dict
  page_number : Option Int := none
  vector : Option (List ℚ) := none

/-! ## Chunking (`semantic_core/chunking/base.py`)

`H` models `hashlib.sha256(·).hexdigest()` on strings, `S` models
`RecursiveCharacterTextSplitter.split_text` for the configured
`TextChunker`; both are third-party and stay parameters. -/

/-- Model of `_chunk_id(*parts)`: stable chunk id from deterministic parts. -/
def chunkIdOf (H : String → String) (parts : List String) : String :=
  H (String.intercalate "|" parts)

/-- Model of `_merge_meta(base_metadata, extra)`: `{**base_metadata, **extra}`,
a fresh dict — the base is never mutated. -/
def mergeMeta (base extra : Dict) : Dict := dictMerge base extra

/-- Model of `TextChunker.chunk`: split `doc.text`, one chunk per piece, with
`chunk_index` / `doc_type` annotations and ids `t{i}`. -/
def textChunk (H : String → String) (S : String → List String)
    (doc : NormalizedDocument) (base_metadata : Dict) : List Chunk :=
  (S doc.text).enum.map fun it =>
    { chunk_id := chunkIdOf H [doc.ref.checksum, "t" ++ toString it.1]
      doc_id := doc.ref.doc_id
      text := it.2
      metadata := mergeMeta base_metadata
        [("chunk_index", .vInt it.1), ("doc_type", .vStr doc.ref.doc_type)] }

/-- A JSON value as produced by `json.loads` (dicts keep insertion order). -/
inductive Json where
  | jnull
  | jbool (b : Bool)
  | jint (n : Int)
  | jstr (s : String)
  | jarr (xs : List Json)
  | jobj (kvs : List (String × Json))

/-- Python `str(·)` on a scalar JSON leaf; `None` renders as `""`
(the `"" if obj is None else str(obj)` expression in `_flatten_json`). -/
def leafStr : Json → String
  | .jnull => ""
  | .jbool b => if b then "True" else "False"
  | .jint n => toString n
  | .jstr s => s
  | _ => ""

mutual
/-- Model of `_flatten_json(obj, prefix)`: flatten JSON into `(path, value)` pairs;
object keys joined with `.`, array indices rendered `[i]`, top-level
scalars (empty prefix) dropped. -/
def flattenJson : Json → String → List (String × String)
  | .jobj kvs, pre => flattenPairs kvs pre
  | .jarr xs, pre => flattenArr xs pre 0
  | leaf, pre => if pre = "" then [] else [(pre, leafStr leaf)]

/-- The dict branch of `_flatten_json`. -/
def flattenPairs : List (String × Json) → String → List (String × String)
  | [], _ => []
  | (k, v) :: rest, pre =>
      flattenJson v (if pre = "" then k else pre ++ "." ++ k) ++ flattenPairs rest pre

/-- The list branch of `_flatten_json` (`i` is the current array index). -/
def flattenArr : List Json → String → Nat → List (String × String)
  | [], _, _ => []
  | v :: rest, pre, i =>
      flattenJson v (pre ++ "[" ++ toString i ++ "]") ++ flattenArr rest pre (i + 1)
end

/-- The `path: value` lines `JsonChunker.chunk` keeps: values that are
empty after stripping are dropped, input order is preserved. -/
def flattenLines (obj : Json) : List String :=
  ((flattenJson obj "").filter fun pv => pyStrip pv.2 ≠ "").map
    fun pv => pv.1 ++ ": " ++ pv.2

/-- The flattened text handed to the text chunker (`"\n".join(lines).strip()`). -/
def flattenedText (obj : Json) : String :=
  pyStrip (String.intercalate "\n" (flattenLines obj))

/-- Model of `JsonChunker.chunk`: parse (`P` models `json.loads`, `none` = raised),
flatten, chunk the flattened text, re-id as `j{i}` and annotate. -/
def jsonChunk (H : String → String) (S : String → List String)
    (P : String → Option Json)
    (doc : NormalizedDocument) (base_metadata : Dict) : List Chunk :=
  match P doc.text with
  | none => textChunk H S doc base_metadata
  | some obj =>
      let proxy : NormalizedDocument := { ref := doc.ref, text := flattenedText obj }
      (textChunk H S proxy base_metadata).enum.map fun ic =>
        { chunk_id := chunkIdOf H [doc.ref.checksum, "j" ++ toString ic.1]
          doc_id := ic.2.doc_id
          text := ic.2.text
          metadata := mergeMeta ic.2.metadata [("json_flattened", .vBool true)]
          page_number := ic.2.page_number
          start_char := ic.2.start_char
          end_char := ic.2.end_char }

/-- Model of `HtmlChunker.chunk`: here `E` models the BeautifulSoup block extraction
(visible text with `## ` headings, joined and stripped); then chunk the
extracted text, re-id as `h{i}` and annotate. -/
def htmlChunk (H : String → String) (S : String → List String)
    (E : String → String)
    (doc : NormalizedDocument) (base_metadata : Dict) : List Chunk :=
  let proxy : NormalizedDocument := { ref := doc.ref, text := E doc.text }
  (textChunk H S proxy base_metadata).enum.map fun ic =>
    { chunk_id := chunkIdOf H [doc.ref.checksum, "h" ++ toString ic.1]
      doc_id := ic.2.doc_id
      text := ic.2.text
      metadata := mergeMeta ic.2.metadata [("html_extracted", .vBool true)]
      page_number := ic.2.page_number
      start_char := ic.2.start_char
      end_char := ic.2.end_char }

/-- Model of `PdfChunker.chunk`: page-aware when `doc.pages` is truthy, else the
`p0_{i}` fallback over `doc.text`. -/
def pdfChunk (H : String → String) (S : String → List String)
    (doc : NormalizedDocument) (base_metadata : Dict) : List Chunk :=
  match doc.pages with
  | none => pdfFallback H S doc base_metadata
  | some [] => pdfFallback H S doc base_metadata
  | some pages =>
      pages.enum.flatMap fun pt =>
        let page_idx : Nat := pt.1 + 1
        if pyStrip pt.2 = "" then []
        else
          let proxy : NormalizedDocument := { ref := doc.ref, text := pt.2 }
          let page_chunks := textChunk H S proxy
            (mergeMeta base_metadata [("page_number", .vInt page_idx)])
          page_chunks.enum.map fun ic =>
            { chunk_id := chunkIdOf H
                [doc.ref.checksum, "p" ++ toString page_idx ++ "_" ++ toString ic.1]
              doc_id := doc.ref.doc_id
              text := ic.2.text
              metadata := mergeMeta ic.2.metadata
                [("pdf_page_aware", .vBool true), ("page_number", .vInt page_idx)]
              page_number := some page_idx }
where
  /-- The `not doc.pages` fallback branch of `PdfChunker.chunk`. -/
  pdfFallback (H : String → String) (S : String → List String)
      (doc : NormalizedDocument) (base_metadata : Dict) : List Chunk :=
    (textChunk H S doc base_metadata).enum.map fun ic =>
      { chunk_id := chunkIdOf H [doc.ref.checksum, "p0_" ++ toString ic.1]
        doc_id := ic.2.doc_id
        text := ic.2.text
        metadata := mergeMeta ic.2.metadata [("pdf_page_aware", .vBool false)]
        page_number := ic.2.page_number
        start_char := ic.2.start_char
        end_char := ic.2.end_char }

/-- Model of `build_default_chunker()` followed by `RouterChunker.chunk`: dispatch
on `doc.ref.doc_type`; `txt`/`raw`/`docx`/`csv` and the fallback all use
the same `TextChunker` instance. -/
def defaultChunk (H : String → String) (S : String → List String)
    (P : String → Option Json) (E : String → String)
    (doc : NormalizedDocument) (base_metadata : Dict) : List Chunk :=
  match doc.ref.doc_type with
  | "json" => jsonChunk H S P doc base_metadata
  | "html" => htmlChunk H S E doc base_metadata
  | "pdf" => pdfChunk H S doc base_metadata
  | _ => textChunk H S doc base_metadata

/-! ## Document normalization (`semantic_core/ingest/normalizer.py`) -/

/-- Model of the `HTTPException`s raised by `DocumentNormalizer.normalize`. -/
inductive NormError where
  | noSource
  | emptyText
  | unsupportedDocType
  deriving DecidableEq

/-- Model of the ingest request payload fields read by `normalize`. -/
structure IngestPayload where
  raw_text : Option String := none
  json_text : Option String := none
  doc_type : String
  source : String
  metadata : Dict := []

/-- Model of `FileInput`: framework-agnostic file container (raw bytes). -/
structure FileInput where
  data : List Nat
  filename : Option String := none

/-- Python truthiness of an `Optional[str]`: `None` and `""` are falsy. -/
def pyTruthyStr : Option String → Bool
  | none => false
  | some s => s != ""

/-- The third-party readers (`semantic_core/ingest/readers.py`), kept
as parameters: each turns raw bytes into extracted text. -/
structure Readers where
  read_txt : List Nat → String
  read_json : List Nat → String
  read_csv : List Nat → String
  read_docx : List Nat → String
  read_pdf : List Nat → String

/-- Model of `_extract_text_from_file`: dispatch on `doc_type` (note the
source sends `html` to `read_txt`); unknown types raise HTTP 400. -/
def extractTextFromFile (R : Readers) (doc_type : String) (data : List Nat) :
    Except NormError String :=
  match doc_type with
  | "txt" => .ok (R.read_txt data)
  | "json" => .ok (R.read_json data)
  | "csv" => .ok (R.read_csv data)
  | "docx" => .ok (R.read_docx data)
  | "pdf" => .ok (R.read_pdf data)
  | "html" => .ok (R.read_txt data)
  | _ => .error .unsupportedDocType

/-- The text-source precedence of `DocumentNormalizer.normalize`:
truthy `raw_text`, else truthy `json_text`, else a provided file, else
the HTTP 422 `noSource` failure. -/
def chooseSource (R : Readers) (p : IngestPayload) (file_input : Option FileInput) :
    Except NormError String :=
  if pyTruthyStr p.raw_text then .ok (p.raw_text.getD "")
  else if pyTruthyStr p.json_text then .ok (p.json_text.getD "")
  else
    match file_input with
    | some fi => extractTextFromFile R p.doc_type fi.data
    | none => .error .noSource

/-- Model of `DocumentNormalizer.normalize`.  `H` models the SHA-256
hex digest, `doc_id` the fresh `uuid.uuid4()` string and `created_at`
the `created_at or datetime.now()` timestamp. -/
def docNormalize (H : String → String) (R : Readers) (p : IngestPayload)
    (file_input : Option FileInput) (doc_id : String) (created_at : Int) :
    Except NormError NormalizedDocument :=
  match chooseSource R p file_input with
  | .error e => .error e
  | .ok raw =>
      let text := normalize_text raw
      if text = "" then .error .emptyText
      else
        .ok
          { ref :=
              { doc_id := doc_id
                source := p.source
                doc_type := p.doc_type
                created_at := created_at
                checksum := H text
                extra :=
                  [("filename",
                    match file_input with
                    | some fi =>
                        match fi.filename with
                        | some f => .vStr f
                        | none => .vNone
                    | none => .vNone),
                   ("metadata", .vDict p.metadata)] }
            text := text }

/-! ## Qdrant vector store (`semantic_core/vectorstores/qdrant_store.py`) -/

/-- Model of the Python runtime errors the store code can raise. -/
inductive PyError where
  | typeError
  | attributeError
  deriving DecidableEq

/-- A stored Qdrant point: id, vector, and the upserted payload fields. -/
structure QdrantPoint where
  id : String
  vector : List ℚ
  doc_id : String
  chunk_id : String
  text : String
  metadata : Dict
  page_number : Option Int := none

/-- The vector size the collection is configured with in `__init__`:
`size=vector_size if vector_size < 128 else 768`. -/
def provisionedSize (vector_size : Nat) : Nat :=
  if vector_size < 128 then vector_size else 768

/-- The collections of a Qdrant server: name with configured vector size. -/
structure QdrantCollections where
  collections : List (String × Nat)

/-- Model of `client.collection_exists(collection_name)`. -/
def collection_exists (st : QdrantCollections) (name : String) : Bool :=
  st.collections.any fun c => c.1 == name

/-- The provisioning step of `QDrantVectorStore.__init__`: create the
collection only when it does not already exist. -/
def provisionCollection (st : QdrantCollections) (name : String)
    (vector_size : Nat) : QdrantCollections :=
  if collection_exists st name then st
  else ⟨st.collections ++ [(name, provisionedSize vector_size)]⟩

/-- Conversion of one `EmbeddedChunk` to a `PointStruct` in `upsert`:
the point id is `uuid5` of the chunk id when that is truthy, else a
fresh `uuid4` (`u4`); the payload `chunk_id` field is set to the point
id, not the original chunk id. -/
def toPoint (u5 : String → String) (u4 : String) (e : EmbeddedChunk) : QdrantPoint :=
  let pid := if e.chunk.chunk_id != "" then u5 e.chunk.chunk_id else u4
  { id := pid
    vector := e.vector
    doc_id := e.chunk.doc_id
    chunk_id := pid
    text := e.chunk.text
    metadata := e.chunk.metadata
    page_number := e.chunk.page_number }

/-- Server-side upsert of one point: replace the point with the same id,
else append. -/
def applyPoint (points : List QdrantPoint) (p : QdrantPoint) : List QdrantPoint :=
  if points.any (fun q => q.id == p.id) then
    points.map fun q => if q.id == p.id then p else q
  else points ++ [p]

/-- Model of `QDrantVectorStore.upsert`.  On an empty sequence the guard
executes `print.warning("No items to upsert")`, and the builtin `print`
function has no attribute `warning`, so an `AttributeError` is raised
before returning. -/
def qdrantUpsert (u5 : String → String) (u4 : String)
    (points : List QdrantPoint) (items : List EmbeddedChunk) :
    Except PyError (List QdrantPoint) :=
  match items with
  | [] => .error .attributeError
  | _ => .ok (items.foldl (fun st it => applyPoint st (toPoint u5 u4 it)) points)

/-- Python `==` filter match of one stored metadata dict against the
query filters: every filter key must be present with an equal value
(qdrant `FieldCondition(key="metadata.k", match=MatchValue(value))`,
all conditions in `must`). -/
def matchesFilters (meta : Dict) (filters : Dict) : Bool :=
  filters.all fun kv =>
    match dictGet meta kv.1 with
    | some v => pvEq v kv.2
    | none => false

/-- Conversion of a search hit to a `SearchResult` in `query`: note the
payload `chunk_id` (the point id), `page_number` left at its default,
and `vector` absent because the search passes `with_vectors=False`. -/
def toResult (sim : List ℚ → List ℚ → ℚ) (qvec : List ℚ) (p : QdrantPoint) :
    SearchResult :=
  { chunk_id := p.chunk_id
    doc_id := p.doc_id
    score := sim qvec p.vector
    text := p.text
    metadata := p.metadata }

/-- Model of `client.search` from the documented contract: score the
filter-matching points with the similarity `sim`, sort by descending
score, return at most `limit` hits. -/
def qdrantSearch (sim : List ℚ → List ℚ → ℚ) (points : List QdrantPoint)
    (qvec : List ℚ) (flt : Dict) (limit : Nat) : List SearchResult :=
  ((((points.filter fun p => matchesFilters p.metadata flt).map
      (toResult sim qvec)).mergeSort fun a b => decide (b.score ≤ a.score)).take
    limit)

/-- Model of `QDrantVectorStore.query`: the filter is built from
`query.filters`, the limit is `query.top_k`, and `query.min_score` is
never read. -/
def qdrantQuery (sim : List ℚ → List ℚ → ℚ) (points : List QdrantPoint)
    (qvec : List ℚ) (q : SearchQuery) : List SearchResult :=
  qdrantSearch sim points qvec q.filters q.top_k

/-! ## Index pipeline (`semantic_core/pipeline/indexer.py`) -/

/-- The dynamic value bound by `base_meta = self.metadata` and handed to
the chunker as `base_metadata`: either an actual dict, or the
`MetadataBuilder` object itself (what the source passes; the commented
alternative `self.metadata.build_document_metadata(doc.ref)` would give
the `dict` case). -/
inductive BaseMetaArg where
  | dict (d : Dict)
  | builder (build_document_metadata : DocumentRef → Dict)

/-- Model of `_merge_meta` under dynamic typing: `{**base_metadata, ...}`
raises `TypeError` when `base_metadata` is not a mapping (the
`MetadataBuilder` implementations define no mapping protocol). -/
def mergeMetaDyn : BaseMetaArg → Dict → Except PyError Dict
  | .dict d, extra => .ok (mergeMeta d extra)
  | .builder _, _ => .error .typeError

/-- Model of `TextChunker.chunk` under dynamic typing of `base_metadata`. -/
def textChunkDyn (H : String → String) (S : String → List String)
    (doc : NormalizedDocument) (base_metadata : BaseMetaArg) :
    Except PyError (List Chunk) :=
  (S doc.text).enum.mapM fun it => do
    let meta ← mergeMetaDyn base_metadata
      [("chunk_index", .vInt it.1), ("doc_type", .vStr doc.ref.doc_type)]
    pure { chunk_id := chunkIdOf H [doc.ref.checksum, "t" ++ toString it.1]
           doc_id := doc.ref.doc_id
           text := it.2
           metadata := meta }

/-- Model of `IndexPipeline.index`: bind `base_meta = self.metadata`
(the builder object, not `build_document_metadata(doc.ref)`), chunk,
embed every chunk text as one batch, `zip` chunks with vectors into
`EmbeddedChunk`s, upsert, return the count.  The result carries the
batch handed to `store.upsert` together with the returned count. -/
def indexPipeline
    (chunkF : NormalizedDocument → BaseMetaArg → Except PyError (List Chunk))
    (embed_texts : List String → List (List ℚ))
    (build_document_metadata : DocumentRef → Dict)
    (doc : NormalizedDocument) : Except PyError (List EmbeddedChunk × Nat) := do
  let base_meta := BaseMetaArg.builder build_document_metadata
  let chunks ← chunkF doc base_meta
  let vectors := embed_texts (chunks.map (·.text))
  let embedded := List.zipWith (fun c v => EmbeddedChunk.mk c v) chunks vectors
  pure (embedded, embedded.length)

/-! ## Derived notions named by the specification claims -/

/-- The metadata keys the routed strategy itself writes for a document of
the given `doc_type` (the keys it explicitly annotates); every other key
of `base_metadata` must survive into each chunk unchanged. -/
def annotKeys (doc_type : String) : List String :=
  match doc_type with
  | "json" => ["chunk_index", "doc_type", "json_flattened"]
  | "html" => ["chunk_index", "doc_type", "html_extracted"]
  | "pdf" => ["chunk_index", "doc_type", "pdf_page_aware", "page_number"]
  | _ => ["chunk_index", "doc_type"]

/-! ## Concrete instances used in witnesses and counterexamples -/

/-- Identity instantiation of the digest parameter `H`. -/
def hashId : String → String := fun s => s

/-- Splitter behaviour returning the whole text as one piece. -/
def splitWhole : String → List String := fun s => [s]

/-- Splitter behaviour returning no pieces. -/
def splitNone : String → List String := fun _ => []

/-- Parser behaviour modelling `json.loads` always raising. -/
def parseNone : String → Option Json := fun _ => none

/-- Embedder behaviour: one (empty) vector per input text, in order. -/
def embedEmptyVecs : List String → List (List ℚ) := fun ts => ts.map fun _ => []

/-- A concrete `txt` document reference. -/
def refTxt : DocumentRef :=
  { doc_id := "d1", source := "a.txt", doc_type := "txt", created_at := 0,
    checksum := "ck" }

/-- A concrete normalized `txt` document. -/
def docTxt : NormalizedDocument := { ref := refTxt, text := "hello" }

/-- A second concrete normalized `txt` document. -/
def docTxt2 : NormalizedDocument :=
  { ref := { doc_id := "d2", source := "b.txt", doc_type := "txt",
             created_at := 1, checksum := "ck2" }
    text := "world" }

/-- The structured input `{"a":{"b":2},"c":[1,2]}` of the concrete
flattening scenario. -/
def exJson : Json :=
  .jobj [("a", .jobj [("b", .jint 2)]), ("c", .jarr [.jint 1, .jint 2])]

/-- A concrete normalized `json` document carrying that input. -/
def docJson : NormalizedDocument :=
  { ref := { doc_id := "d3", source := "r.json", doc_type := "json",
             created_at := 0, checksum := "ck3" }
    text := "placeholder" }

/-- Parser behaviour: `json.loads` succeeds with `exJson`. -/
def parseEx : String → Option Json := fun _ => some exJson

/-- Dot product, a concrete admissible similarity (cosine similarity of
unit vectors). -/
def dotQ (a b : List ℚ) : ℚ := (List.zipWith (· * ·) a b).sum

/-- A concrete stored point. -/
def ptC2 : QdrantPoint :=
  { id := "p1", vector := [1, 0], doc_id := "d", chunk_id := "u1",
    text := "t", metadata := [] }

/-- A concrete query with `min_score` set. -/
def qC2 : SearchQuery :=
  { query := "q", top_k := 5, min_score := some 1, filters := [] }

/-- A concrete query with a `doc_type` filter no stored chunk matches. -/
def qFiltered : SearchQuery :=
  { query := "q", top_k := 5, filters := [("doc_type", .vStr "pdf")] }

/-- A concrete ingest payload with only `raw_text` set. -/
def payloadC5 : IngestPayload :=
  { raw_text := some "Hello world.\n\n\nThis is   a test.",
    doc_type := "txt", source := "inline" }

/-- A concrete ingest payload whose `raw_text` and `json_text` are the
empty string. -/
def payloadC10 : IngestPayload :=
  { raw_text := some "", json_text := some "", doc_type := "txt", source := "s" }

/-- Reader behaviours that extract a fixed text. -/
def zeroReaders : Readers :=
  { read_txt := fun _ => "file text"
    read_json := fun _ => "file text"
    read_csv := fun _ => "file text"
    read_docx := fun _ => "file text"
    read_pdf := fun _ => "file text" }

/-- A concrete base metadata mapping supplied by the caller. -/
def baseTenant : Dict := [("tenant", .vStr "t1")]

/-- The normalized document produced for `payloadC5` under `hashId`. -/
def ndC5 : NormalizedDocument :=
  { ref :=
      { doc_id := "d"
        source := "inline"
        doc_type := "txt"
        created_at := 0
        checksum := "Hello world.\n\nThis is a test."
        extra := [("filename", .vNone), ("metadata", .vDict [])] }
    text := "Hello world.\n\nThis is a test." }

/-! ## Dictionary lemmas -/

theorem dictGet_dictSet_ne (d : Dict) (k k' : String) (v : PyVal) (h : k' ≠ k) :
    dictGet (dictSet d k' v) k = dictGet d k := by
  induction d with
  | nil => simp [dictSet, dictGet, h]
  | cons p rest ih =>
      obtain ⟨pk, pv⟩ := p
      by_cases hpk : pk = k'
      · subst hpk
        simp [dictSet, dictGet, h]
      · simp only [dictSet]
        rw [if_neg hpk]
        by_cases hk : pk = k
        · simp [dictGet, hk]
        · simp [dictGet, hk, ih]

theorem dictGet_dictMerge_not_mem (base extra : Dict) (k : String)
    (h : k ∉ extra.map Prod.fst) :
    dictGet (dictMerge base extra) k = dictGet base k := by
  induction extra generalizing base with
  | nil => rfl
  | cons p rest ih =>
      obtain ⟨pk, pv⟩ := p
      simp only [List.map_cons, List.mem_cons] at h
      push_neg at h
      simp only [dictMerge, List.foldl_cons]
      have := ih (dictSet base pk pv) h.2
      simp only [dictMerge] at this
      rw [this, dictGet_dictSet_ne base k pk pv (fun he => h.1 he.symm)]

/-! ## Chunker lemmas -/

theorem mem_textChunk {H : String → String} {S : String → List String}
    {doc : NormalizedDocument} {base : Dict} {c : Chunk}
    (hc : c ∈ textChunk H S doc base) :
    ∃ i t, (i, t) ∈ (S doc.text).enum ∧
      c = { chunk_id := chunkIdOf H [doc.ref.checksum, "t" ++ toString i]
            doc_id := doc.ref.doc_id
            text := t
            metadata := mergeMeta base
              [("chunk_index", .vInt i), ("doc_type", .vStr doc.ref.doc_type)] } := by
  simp only [textChunk, List.mem_map] at hc
  obtain ⟨⟨i, t⟩, hm, rfl⟩ := hc
  exact ⟨i, t, hm, rfl⟩

theorem textChunk_preserves {H : String → String} {S : String → List String}
    {doc : NormalizedDocument} {base : Dict} {k : String} {v : PyVal}
    (hv : dictGet base k = some v)
    (h1 : k ≠ "chunk_index") (h2 : k ≠ "doc_type") :
    ∀ c ∈ textChunk H S doc base, dictGet c.metadata k = some v := by
  intro c hc
  obtain ⟨i, t, _, rfl⟩ := mem_textChunk hc
  show dictGet (mergeMeta base _) k = some v
  rw [mergeMeta, dictGet_dictMerge_not_mem _ _ _ (by simp [h1, h2])]
  exact hv

theorem textChunk_map_text (H : String → String) (S : String → List String)
    (doc : NormalizedDocument) (base : Dict) :
    (textChunk H S doc base).map (·.text) = S doc.text := by
  simp only [textChunk, List.map_map]
  have : ((fun c : Chunk => c.text) ∘ fun it : Nat × String =>
      ({ chunk_id := chunkIdOf H [doc.ref.checksum, "t" ++ toString it.1]
         doc_id := doc.ref.doc_id
         text := it.2
         metadata := mergeMeta base
           [("chunk_index", .vInt it.1), ("doc_type", .vStr doc.ref.doc_type)] } : Chunk)) =
      Prod.snd := rfl
  rw [this, List.enum_map_snd]

theorem mem_of_mem_enum {α : Type} {l : List α} {i : Nat} {x : α}
    (h : (i, x) ∈ l.enum) : x ∈ l := by
  obtain ⟨hlt, hx⟩ := List.mem_enum h
  exact hx ▸ List.getElem_mem hlt

theorem jsonChunk_preserves {H : String → String} {S : String → List String}
    {P : String → Option Json}
    {doc : NormalizedDocument} {base : Dict} {k : String} {v : PyVal}
    (hv : dictGet base k = some v)
    (h1 : k ≠ "chunk_index") (h2 : k ≠ "doc_type") (h3 : k ≠ "json_flattened") :
    ∀ c ∈ jsonChunk H S P doc base, dictGet c.metadata k = some v := by
  intro c hc
  unfold jsonChunk at hc
  cases hP : P doc.text with
  | none =>
      rw [hP] at hc
      exact textChunk_preserves hv h1 h2 c hc
  | some obj =>
      rw [hP] at hc
      simp only [List.mem_map] at hc
      obtain ⟨⟨i, c'⟩, hm, rfl⟩ := hc
      show dictGet (mergeMeta c'.metadata _) k = some v
      rw [mergeMeta, dictGet_dictMerge_not_mem _ _ _ (by simp [h3])]
      exact textChunk_preserves hv h1 h2 c' (mem_of_mem_enum hm)

theorem htmlChunk_preserves {H : String → String} {S : String → List String}
    {E : String → String}
    {doc : NormalizedDocument} {base : Dict} {k : String} {v : PyVal}
    (hv : dictGet base k = some v)
    (h1 : k ≠ "chunk_index") (h2 : k ≠ "doc_type") (h3 : k ≠ "html_extracted") :
    ∀ c ∈ htmlChunk H S E doc base, dictGet c.metadata k = some v := by
  intro c hc
  simp only [htmlChunk, List.mem_map] at hc
  obtain ⟨⟨i, c'⟩, hm, rfl⟩ := hc
  show dictGet (mergeMeta c'.metadata _) k = some v
  rw [mergeMeta, dictGet_dictMerge_not_mem _ _ _ (by simp [h3])]
  exact textChunk_preserves hv h1 h2 c' (mem_of_mem_enum hm)

theorem pdfFallback_preserves {H : String → String} {S : String → List String}
    {doc : NormalizedDocument} {base : Dict} {k : String} {v : PyVal}
    (hv : dictGet base k = some v)
    (h1 : k ≠ "chunk_index") (h2 : k ≠ "doc_type") (h3 : k ≠ "pdf_page_aware") :
    ∀ c ∈ pdfChunk.pdfFallback H S doc base, dictGet c.metadata k = some v := by
  intro c hc
  simp only [pdfChunk.pdfFallback, List.mem_map] at hc
  obtain ⟨⟨i, c'⟩, hm, rfl⟩ := hc
  show dictGet (mergeMeta c'.metadata _) k = some v
  rw [mergeMeta, dictGet_dictMerge_not_mem _ _ _ (by simp [h3])]
  exact textChunk_preserves hv h1 h2 c' (mem_of_mem_enum hm)

theorem pdfChunk_preserves {H : String → String} {S : String → List String}
    {doc : NormalizedDocument} {base : Dict} {k : String} {v : PyVal}
    (hv : dictGet base k = some v)
    (h1 : k ≠ "chunk_index") (h2 : k ≠ "doc_type") (h3 : k ≠ "pdf_page_aware")
    (h4 : k ≠ "page_number") :
    ∀ c ∈ pdfChunk H S doc base, dictGet c.metadata k = some v := by
  intro c hc
  unfold pdfChunk at hc
  cases hpg : doc.pages with
  | none =>
      rw [hpg] at hc
      exact pdfFallback_preserves hv h1 h2 h3 c hc
  | some pages =>
      rw [hpg] at hc
      cases pages with
      | nil => exact pdfFallback_preserves hv h1 h2 h3 c hc
      | cons p0 prest =>
          simp only [List.mem_flatMap] at hc
          obtain ⟨⟨pidx0, ptext⟩, hpm, hcm⟩ := hc
          by_cases hstrip : pyStrip ptext = ""
          · rw [if_pos hstrip] at hcm
            exact absurd hcm (List.not_mem_nil c)
          · rw [if_neg hstrip] at hcm
            simp only [List.mem_map] at hcm
            obtain ⟨⟨i, c'⟩, hm, rfl⟩ := hcm
            show dictGet (mergeMeta c'.metadata _) k = some v
            rw [mergeMeta, dictGet_dictMerge_not_mem _ _ _ (by simp [h3, h4])]
            have hbase' : dictGet (mergeMeta base [("page_number", .vInt (pidx0 + 1))]) k = some v := by
              rw [mergeMeta, dictGet_dictMerge_not_mem _ _ _ (by simp [h4])]
              exact hv
            exact textChunk_preserves hbase' h1 h2 c' (mem_of_mem_enum hm)

/-- The tag shapes `_chunk_id` is called with: a strategy letter plus the
positional index, with the page number in the page-aware PDF case. -/
def tagShape (tag : String) : Prop :=
  (∃ i : Nat, tag = "t" ++ toString i ∨ tag = "j" ++ toString i ∨
      tag = "h" ++ toString i ∨ tag = "p0_" ++ toString i) ∨
  ∃ p i : Nat, tag = "p" ++ toString p ++ "_" ++ toString i

theorem textChunk_id {H : String → String} {S : String → List String}
    {doc : NormalizedDocument} {base : Dict} {c : Chunk}
    (hc : c ∈ textChunk H S doc base) :
    ∃ tag, c.chunk_id = chunkIdOf H [doc.ref.checksum, tag] ∧ tagShape tag := by
  obtain ⟨i, t, _, rfl⟩ := mem_textChunk hc
  exact ⟨"t" ++ toString i, rfl, Or.inl ⟨i, Or.inl rfl⟩⟩

theorem jsonChunk_id {H : String → String} {S : String → List String}
    {P : String → Option Json}
    {doc : NormalizedDocument} {base : Dict} {c : Chunk}
    (hc : c ∈ jsonChunk H S P doc base) :
    ∃ tag, c.chunk_id = chunkIdOf H [doc.ref.checksum, tag] ∧ tagShape tag := by
  unfold jsonChunk at hc
  cases hP : P doc.text with
  | none => rw [hP] at hc; exact textChunk_id hc
  | some obj =>
      rw [hP] at hc
      simp only [List.mem_map] at hc
      obtain ⟨⟨i, c'⟩, _, rfl⟩ := hc
      exact ⟨"j" ++ toString i, rfl, Or.inl ⟨i, Or.inr (Or.inl rfl)⟩⟩

theorem htmlChunk_id {H : String → String} {S : String → List String}
    {E : String → String}
    {doc : NormalizedDocument} {base : Dict} {c : Chunk}
    (hc : c ∈ htmlChunk H S E doc base) :
    ∃ tag, c.chunk_id = chunkIdOf H [doc.ref.checksum, tag] ∧ tagShape tag := by
  simp only [htmlChunk, List.mem_map] at hc
  obtain ⟨⟨i, c'⟩, _, rfl⟩ := hc
  exact ⟨"h" ++ toString i, rfl, Or.inl ⟨i, Or.inr (Or.inr (Or.inl rfl))⟩⟩

theorem pdfFallback_id {H : String → String} {S : String → List String}
    {doc : NormalizedDocument} {base : Dict} {c : Chunk}
    (hc : c ∈ pdfChunk.pdfFallback H S doc base) :
    ∃ tag, c.chunk_id = chunkIdOf H [doc.ref.checksum, tag] ∧ tagShape tag := by
  simp only [pdfChunk.pdfFallback, List.mem_map] at hc
  obtain ⟨⟨i, c'⟩, _, rfl⟩ := hc
  exact ⟨"p0_" ++ toString i, rfl, Or.inl ⟨i, Or.inr (Or.inr (Or.inr rfl))⟩⟩

theorem pdfChunk_id {H : String → String} {S : String → List String}
    {doc : NormalizedDocument} {base : Dict} {c : Chunk}
    (hc : c ∈ pdfChunk H S doc base) :
    ∃ tag, c.chunk_id = chunkIdOf H [doc.ref.checksum, tag] ∧ tagShape tag := by
  unfold pdfChunk at hc
  cases hpg : doc.pages with
  | none => rw [hpg] at hc; exact pdfFallback_id hc
  | some pages =>
      rw [hpg] at hc
      cases pages with
      | nil => exact pdfFallback_id hc
      | cons p0 prest =>
          simp only [List.mem_flatMap] at hc
          obtain ⟨⟨pidx0, ptext⟩, _, hcm⟩ := hc
          by_cases hstrip : pyStrip ptext = ""
          · rw [if_pos hstrip] at hcm
            exact absurd hcm (List.not_mem_nil c)
          · rw [if_neg hstrip] at hcm
            simp only [List.mem_map] at hcm
            obtain ⟨⟨i, c'⟩, _, rfl⟩ := hcm
            exact ⟨"p" ++ toString (pidx0 + 1) ++ "_" ++ toString i, rfl,
              Or.inr ⟨pidx0 + 1, i, rfl⟩⟩

theorem mem_annotKeys_base (dt : String) :
    "chunk_index" ∈ annotKeys dt ∧ "doc_type" ∈ annotKeys dt := by
  unfold annotKeys
  split <;> simp

/-- C4: for every chunking strategy of the default router, every
normalized document and every base metadata mapping, the merge copies
the base (the pure `mergeMeta` returns a fresh dict whose bindings
outside `extra` agree with the base, and the base value itself is
unchanged by construction), and every key of `base_metadata` outside the
keys the strategy explicitly annotates (`annotKeys`) survives into every
produced chunk with the caller-supplied value. -/
theorem chunking_preserves_base_metadata
    (H : String → String) (S : String → List String)
    (P : String → Option Json) (E : String → String)
    (doc : NormalizedDocument) (base : Dict) (k : String) (v : PyVal)
    (hv : dictGet base k = some v) (hk : k ∉ annotKeys doc.ref.doc_type) :
    (∀ extra : Dict, k ∉ extra.map Prod.fst →
        dictGet (mergeMeta base extra) k = dictGet base k) ∧
    ∀ c ∈ defaultChunk H S P E doc base, dictGet c.metadata k = some v := by
  have hbase := mem_annotKeys_base doc.ref.doc_type
  have h1 : k ≠ "chunk_index" := fun he => hk (he ▸ hbase.1)
  have h2 : k ≠ "doc_type" := fun he => hk (he ▸ hbase.2)
  refine ⟨fun extra he => dictGet_dictMerge_not_mem base extra k he, ?_⟩
  intro c hc
  unfold defaultChunk at hc
  split at hc
  · rename_i hdt
    have h3 : k ≠ "json_flattened" := by
      intro he
      rw [hdt] at hk
      exact hk (by rw [he]; show "json_flattened" ∈ ["chunk_index", "doc_type", "json_flattened"]; simp)
    exact jsonChunk_preserves hv h1 h2 h3 c hc
  · rename_i hdt
    have h3 : k ≠ "html_extracted" := by
      intro he
      rw [hdt] at hk
      exact hk (by rw [he]; show "html_extracted" ∈ ["chunk_index", "doc_type", "html_extracted"]; simp)
    exact htmlChunk_preserves hv h1 h2 h3 c hc
  · rename_i hdt
    have h3 : k ≠ "pdf_page_aware" := by
      intro he
      rw [hdt] at hk
      exact hk (by rw [he]
                   show "pdf_page_aware" ∈ ["chunk_index", "doc_type", "pdf_page_aware", "page_number"]
                   simp)
    have h4 : k ≠ "page_number" := by
      intro he
      rw [hdt] at hk
      exact hk (by rw [he]
                   show "page_number" ∈ ["chunk_index", "doc_type", "pdf_page_aware", "page_number"]
                   simp)
    exact pdfChunk_preserves hv h1 h2 h3 h4 c hc
  · exact textChunk_preserves hv h1 h2 c hc

/-- The chunk the default router produces for `docTxt` with base
metadata `baseTenant` under `hashId` / `splitWhole`. -/
def chunkTxt0 : Chunk :=
  { chunk_id := "ck|t0"
    doc_id := "d1"
    text := "hello"
    metadata := [("tenant", .vStr "t1"), ("chunk_index", .vInt 0),
                 ("doc_type", .vStr "txt")] }

theorem chunking_preserves_base_metadata_witness :
    dictGet chunkTxt0.metadata "tenant" = some (.vStr "t1") :=
  (chunking_preserves_base_metadata hashId splitWhole parseNone hashId
      docTxt baseTenant "tenant" (.vStr "t1") rfl (by decide)).2
    chunkTxt0 (List.mem_singleton.mpr rfl)

/-- C6: chunking the same document twice with the same router
configuration yields identical results (hence identical ordered
`chunk_id` sequences), and every produced `chunk_id` is the hash of the
document checksum joined with a strategy tag made of a strategy letter
and the positional index (with the page number in the page-aware PDF
case). -/
theorem chunk_ids_deterministic
    (H : String → String) (S : String → List String)
    (P : String → Option Json) (E : String → String)
    (doc : NormalizedDocument) (base : Dict) :
    (defaultChunk H S P E doc base).map (·.chunk_id) =
      (defaultChunk H S P E doc base).map (·.chunk_id) ∧
    ∀ c ∈ defaultChunk H S P E doc base,
      ∃ tag, c.chunk_id = chunkIdOf H [doc.ref.checksum, tag] ∧ tagShape tag := by
  refine ⟨rfl, ?_⟩
  intro c hc
  unfold defaultChunk at hc
  split at hc
  · exact jsonChunk_id hc
  · exact htmlChunk_id hc
  · exact pdfChunk_id hc
  · exact textChunk_id hc

theorem chunk_ids_deterministic_witness :
    ∃ tag, chunkTxt0.chunk_id = chunkIdOf hashId [docTxt.ref.checksum, tag] ∧
      tagShape tag :=
  (chunk_ids_deterministic hashId splitWhole parseNone hashId docTxt
      baseTenant).2 chunkTxt0 (List.mem_singleton.mpr rfl)

/-- C3: `QDrantVectorStore.upsert` applied to an empty sequence does NOT
return normally: the guard runs `print.warning("No items to upsert")`
and the builtin `print` has no attribute `warning`, so an
`AttributeError` is raised for every store state.  (The claim itself is
right about the intent — the spec requires an empty-sequence no-op — so
this records the code bug.) -/
theorem upsert_empty_raises (u5 : String → String) (u4 : String)
    (points : List QdrantPoint) :
    qdrantUpsert u5 u4 points [] = .error .attributeError := rfl

/-- C9 counterexample: with a detected or provided dimensionality of
1536, the freshly created collection is configured with vector size 768,
not 1536. -/
theorem provision_size_counterexample :
    (provisionCollection ⟨[]⟩ "chunks" 1536).collections = [("chunks", 768)] ∧
    (768 : Nat) ≠ 1536 :=
  ⟨rfl, by decide⟩

/-- C9 (amended): provisioning creates the collection only when it does
not already exist and is idempotent, and the configured vector size is
the dimensionality only when it is below 128, and 768 otherwise. -/
theorem provision_idempotent (st : QdrantCollections) (n : String) (v : Nat) :
    (collection_exists st n = true → provisionCollection st n v = st) ∧
    (collection_exists st n = false →
      (provisionCollection st n v).collections =
        st.collections ++ [(n, if v < 128 then v else 768)]) ∧
    ∀ v' : Nat,
      provisionCollection (provisionCollection st n v) n v' =
        provisionCollection st n v := by
  refine ⟨fun h => by simp [provisionCollection, h], fun h => by
    simp [provisionCollection, h, provisionedSize], fun v' => ?_⟩
  by_cases h : collection_exists st n
  · simp [provisionCollection, h]
  · have h' : collection_exists st n = false := eq_false_of_ne_true h
    have hst : provisionCollection st n v =
        ⟨st.collections ++ [(n, provisionedSize v)]⟩ := by
      simp [provisionCollection, h']
    rw [hst]
    have hex : collection_exists
        (⟨st.collections ++ [(n, provisionedSize v)]⟩ : QdrantCollections) n = true := by
      simp [collection_exists, List.any_append]
    simp [provisionCollection, hex]

theorem provision_idempotent_witness :
    (provisionCollection ⟨[]⟩ "c" 50).collections =
      [] ++ [("c", if 50 < 128 then 50 else 768)] :=
  (provision_idempotent ⟨[]⟩ "c" 50).2.1 rfl

/-- C1: `IndexPipeline.index` binds `base_meta = self.metadata`, the
`MetadataBuilder` object itself, instead of the mapping
`build_document_metadata(doc.ref)`; on any document whose splitter
yields at least one piece the first `_merge_meta` call therefore raises
`TypeError`, and the chunks never carry the entries of the built
mapping.  Evaluated here at a concrete `txt` document. -/
theorem index_passes_builder_not_mapping :
    indexPipeline (textChunkDyn hashId splitWhole) embedEmptyVecs
      (fun _ => [("product", PyVal.vStr "coopwise")]) docTxt =
      .error .typeError := rfl

/-- C7 counterexample: on a concrete document whose splitter yields one
piece, `IndexPipeline.index` raises `TypeError` (because the base
metadata handed to the chunker is the builder object) instead of
embedding, upserting and returning the chunk count. -/
theorem index_no_count_counterexample :
    indexPipeline (textChunkDyn hashId splitWhole) embedEmptyVecs
      (fun _ => []) docTxt2 = .error .typeError ∧
    ∀ r : List EmbeddedChunk × Nat,
      indexPipeline (textChunkDyn hashId splitWhole) embedEmptyVecs
        (fun _ => []) docTxt2 ≠ .ok r := by
  refine ⟨rfl, fun r h => ?_⟩
  rw [show indexPipeline (textChunkDyn hashId splitWhole) embedEmptyVecs
      (fun _ => []) docTxt2 = .error .typeError from rfl] at h
  exact Except.noConfusion h

/-- C7 (amended): whenever the chunking stage succeeds (which the
base-metadata slip prevents unless no merge is evaluated) and the
embedder returns exactly one vector per input text in order,
`IndexPipeline.index` pairs embedding `i` with chunk `i`, hands exactly
that batch to `store.upsert`, and returns the chunk count. -/
theorem index_pairs_in_order
    (chunkF : NormalizedDocument → BaseMetaArg → Except PyError (List Chunk))
    (embed_texts : List String → List (List ℚ))
    (bdm : DocumentRef → Dict) (doc : NormalizedDocument)
    (chunks : List Chunk)
    (hchunk : chunkF doc (.builder bdm) = .ok chunks)
    (hlen : (embed_texts (chunks.map (·.text))).length = chunks.length) :
    ∃ embedded : List EmbeddedChunk,
      indexPipeline chunkF embed_texts bdm doc = .ok (embedded, chunks.length) ∧
      embedded.length = chunks.length ∧
      ∀ (i : Nat) (hi : i < chunks.length) (he : i < embedded.length),
        (embedded.get ⟨i, he⟩).chunk = chunks.get ⟨i, hi⟩ := by
  refine ⟨List.zipWith (fun c v => EmbeddedChunk.mk c v) chunks
    (embed_texts (chunks.map (·.text))), ?_, ?_, ?_⟩
  · show (chunkF doc (.builder bdm)).bind _ = _
    rw [hchunk]
    show Except.ok (_, (List.zipWith _ chunks (embed_texts (chunks.map (·.text)))).length) = _
    rw [List.length_zipWith, hlen, min_self]
  · rw [List.length_zipWith, hlen, min_self]
  · intro i hi he
    rw [List.get_eq_getElem, List.get_eq_getElem, List.getElem_zipWith]

theorem index_pairs_in_order_witness :
    ∃ embedded : List EmbeddedChunk,
      indexPipeline (textChunkDyn hashId splitNone) embedEmptyVecs
        (fun _ => []) docTxt2 = .ok (embedded, 0) ∧
      embedded.length = 0 := by
  obtain ⟨e, h1, h2, _⟩ := index_pairs_in_order (textChunkDyn hashId splitNone)
    embedEmptyVecs (fun _ => []) docTxt2 [] rfl rfl
  exact ⟨e, h1, h2⟩

theorem enum_map_on_snd {α β : Type} (l : List α) (f : α → β) :
    l.enum.map (fun ic => f ic.2) = l.map f := by
  have h1 : l.enum.map (fun ic => f ic.2) = (l.enum.map Prod.snd).map f := by
    rw [List.map_map]
    rfl
  rw [h1, List.enum_map_snd]

theorem jsonChunk_map_text (H : String → String) (S : String → List String)
    (P : String → Option Json) (doc : NormalizedDocument) (base : Dict)
    (obj : Json) (hP : P doc.text = some obj) :
    (jsonChunk H S P doc base).map (·.text) = S (flattenedText obj) := by
  unfold jsonChunk
  rw [hP]
  dsimp only
  rw [List.map_map]
  rw [show ((fun c : Chunk => c.text) ∘ fun ic : Nat × Chunk =>
      ({ chunk_id := chunkIdOf H [doc.ref.checksum, "j" ++ toString ic.1]
         doc_id := ic.2.doc_id
         text := ic.2.text
         metadata := mergeMeta ic.2.metadata [("json_flattened", PyVal.vBool true)]
         page_number := ic.2.page_number
         start_char := ic.2.start_char
         end_char := ic.2.end_char } : Chunk)) = fun ic : Nat × Chunk => ic.2.text from rfl]
  rw [enum_map_on_snd (f := fun c : Chunk => c.text)]
  exact textChunk_map_text H S { ref := doc.ref, text := flattenedText obj } base

/-- C8: the structured-data strategy flattens nested JSON into
`path: value` lines (object keys joined with `.`, array indices as
`[i]`), drops lines whose value is empty after trimming, preserves input
order, and hands the flattened text to the recursive text splitter; the
concrete input flattens to exactly `a.b: 2`, `c[0]: 1`, `c[1]: 2`. -/
theorem json_flatten_spec (H : String → String) (S : String → List String)
    (P : String → Option Json) (doc : NormalizedDocument) (base : Dict)
    (obj : Json) (hP : P doc.text = some obj) :
    flattenJson exJson "" = [("a.b", "2"), ("c[0]", "1"), ("c[1]", "2")] ∧
    flattenLines exJson = ["a.b: 2", "c[0]: 1", "c[1]: 2"] ∧
    flattenLines obj =
      ((flattenJson obj "").filter fun pv => pyStrip pv.2 ≠ "").map
        (fun pv => pv.1 ++ ": " ++ pv.2) ∧
    (jsonChunk H S P doc base).map (·.text) = S (flattenedText obj) :=
  ⟨rfl, rfl, rfl, jsonChunk_map_text H S P doc base obj hP⟩

theorem json_flatten_spec_witness :
    flattenJson exJson "" = [("a.b", "2"), ("c[0]", "1"), ("c[1]", "2")] ∧
    flattenLines exJson = ["a.b: 2", "c[0]: 1", "c[1]: 2"] ∧
    flattenLines exJson =
      ((flattenJson exJson "").filter fun pv => pyStrip pv.2 ≠ "").map
        (fun pv => pv.1 ++ ": " ++ pv.2) ∧
    (jsonChunk hashId splitWhole parseEx docJson []).map (·.text) =
      splitWhole (flattenedText exJson) :=
  json_flatten_spec hashId splitWhole parseEx docJson [] exJson rfl

/-! ## Canonicalization lemmas -/

theorem not_cr_mem_replaceCR (l : List Char) : ∀ c ∈ replaceCR l, c ≠ '\r' := by
  intro c hc
  simp only [replaceCR, List.mem_map] at hc
  obtain ⟨x, _, rfl⟩ := hc
  by_cases hx : x = '\r' <;> simp [hx]

theorem mem_collapseHWs_cases (l : List Char) :
    (∀ c ∈ collapseHWs l, c ∈ l ∨ c = ' ') ∧
    (∀ c ∈ skipHWs l, c ∈ l ∨ c = ' ') := by
  induction l with
  | nil =>
      constructor <;> intro c hc
      · exact absurd hc (by rw [collapseHWs]; exact List.not_mem_nil c)
      · exact absurd hc (by rw [skipHWs]; exact List.not_mem_nil c)
  | cons x rest ih =>
      constructor
      · intro c hc
        rw [collapseHWs] at hc
        by_cases hx : isHWs x
        · rw [if_pos hx] at hc
          rcases List.mem_cons.mp hc with h | h
          · exact Or.inr h
          · rcases ih.2 c h with h' | h'
            · exact Or.inl (List.mem_cons_of_mem x h')
            · exact Or.inr h'
        · rw [if_neg hx] at hc
          rcases List.mem_cons.mp hc with h | h
          · exact Or.inl (h ▸ List.mem_cons_self x rest)
          · rcases ih.1 c h with h' | h'
            · exact Or.inl (List.mem_cons_of_mem x h')
            · exact Or.inr h'
      · intro c hc
        rw [skipHWs] at hc
        by_cases hx : isHWs x
        · rw [if_pos hx] at hc
          rcases ih.2 c hc with h' | h'
          · exact Or.inl (List.mem_cons_of_mem x h')
          · exact Or.inr h'
        · rw [if_neg hx] at hc
          rcases List.mem_cons.mp hc with h | h
          · exact Or.inl (h ▸ List.mem_cons_self x rest)
          · rcases ih.1 c h with h' | h'
            · exact Or.inl (List.mem_cons_of_mem x h')
            · exact Or.inr h'

theorem mem_emitNl (n : Nat) (tail : List Char) :
    ∀ c ∈ emitNl n tail, c = '\n' ∨ c ∈ tail := by
  intro c hc
  unfold emitNl at hc
  by_cases h : 3 ≤ n
  · rw [if_pos h] at hc
    rcases List.mem_cons.mp hc with h' | h'
    · exact Or.inl h'
    · rcases List.mem_cons.mp h' with h'' | h''
      · exact Or.inl h''
      · exact Or.inr h''
  · rw [if_neg h] at hc
    rcases List.mem_append.mp hc with h' | h'
    · exact Or.inl (List.eq_of_mem_replicate h')
    · exact Or.inr h'

theorem mem_collapseNl_cases (l : List Char) :
    (∀ c ∈ collapseNl l, c ∈ l ∨ c = '\n') ∧
    (∀ n, ∀ c ∈ countNl l n, c ∈ l ∨ c = '\n') := by
  induction l with
  | nil =>
      constructor
      · intro c hc
        exact absurd hc (by rw [collapseNl]; exact List.not_mem_nil c)
      · intro n c hc
        rw [countNl] at hc
        rcases mem_emitNl n [] c hc with h | h
        · exact Or.inr h
        · exact absurd h (List.not_mem_nil c)
  | cons x rest ih =>
      constructor
      · intro c hc
        rw [collapseNl] at hc
        by_cases hx : x = '\n'
        · rw [if_pos hx] at hc
          rcases ih.2 1 c hc with h | h
          · exact Or.inl (List.mem_cons_of_mem x h)
          · exact Or.inr h
        · rw [if_neg hx] at hc
          rcases List.mem_cons.mp hc with h | h
          · exact Or.inl (h ▸ List.mem_cons_self x rest)
          · rcases ih.1 c h with h' | h'
            · exact Or.inl (List.mem_cons_of_mem x h')
            · exact Or.inr h'
      · intro n c hc
        rw [countNl] at hc
        by_cases hx : x = '\n'
        · rw [if_pos hx] at hc
          rcases ih.2 (n + 1) c hc with h | h
          · exact Or.inl (List.mem_cons_of_mem x h)
          · exact Or.inr h
        · rw [if_neg hx] at hc
          rcases mem_emitNl n _ c hc with h | h
          · exact Or.inr h
          · rcases List.mem_cons.mp h with h' | h'
            · exact Or.inl (h' ▸ List.mem_cons_self x rest)
            · rcases ih.1 c h' with h'' | h''
              · exact Or.inl (List.mem_cons_of_mem x h'')
              · exact Or.inr h''

theorem mem_stripChars (l : List Char) : ∀ c ∈ stripChars l, c ∈ l := by
  intro c hc
  unfold stripChars at hc
  rw [List.mem_reverse] at hc
  have h1 := (List.dropWhile_sublist isPyWs).subset hc
  rw [List.mem_reverse] at h1
  exact (List.dropWhile_sublist isPyWs).subset h1

theorem normalize_text_no_cr (s : String) : '\r' ∉ (normalize_text s).data := by
  intro hc
  have h1 := mem_stripChars _ _ hc
  rcases (mem_collapseNl_cases _).1 _ h1 with h2 | h2
  · rcases (mem_collapseHWs_cases _).1 _ h2 with h3 | h3
    · exact not_cr_mem_replaceCR _ _ h3 rfl
    · exact absurd h3 (by decide)
  · exact absurd h2 (by decide)

/-- C5: text canonicalization normalizes the concrete raw text
`"Hello world.\n\n\nThis is   a test."` to exactly
`"Hello world.\n\nThis is a test."`, the canonical text contains no
carriage return for any input (line endings are normalized to `\n`),
and the checksum of every successfully normalized document is the hash
`H` of its canonical text. -/
theorem normalize_checksum_spec (H : String → String) (R : Readers)
    (p : IngestPayload) (fi : Option FileInput) (did : String) (ts : Int)
    (nd : NormalizedDocument)
    (h : docNormalize H R p fi did ts = .ok nd) :
    nd.ref.checksum = H nd.text ∧
    normalize_text "Hello world.\n\n\nThis is   a test." =
      "Hello world.\n\nThis is a test." ∧
    ∀ s : String, '\r' ∉ (normalize_text s).data := by
  refine ⟨?_, rfl, normalize_text_no_cr⟩
  unfold docNormalize at h
  cases hcs : chooseSource R p fi with
  | error e =>
      rw [hcs] at h
      exact Except.noConfusion h
  | ok raw =>
      rw [hcs] at h
      dsimp only at h
      by_cases ht : normalize_text raw = ""
      · rw [if_pos ht] at h
        exact Except.noConfusion h
      · rw [if_neg ht] at h
        cases h
        rfl

theorem normalize_checksum_spec_witness :
    ndC5.ref.checksum = hashId ndC5.text ∧
    normalize_text "Hello world.\n\n\nThis is   a test." =
      "Hello world.\n\nThis is a test." :=
  ⟨(normalize_checksum_spec hashId zeroReaders payloadC5 none "d" 0 ndC5 rfl).1,
   (normalize_checksum_spec hashId zeroReaders payloadC5 none "d" 0 ndC5 rfl).2.1⟩

theorem chooseSource_noSource_iff (R : Readers) (p : IngestPayload)
    (fi : Option FileInput) :
    chooseSource R p fi = .error .noSource ↔
      pyTruthyStr p.raw_text = false ∧ pyTruthyStr p.json_text = false ∧
        fi = none := by
  unfold chooseSource
  by_cases h1 : pyTruthyStr p.raw_text
  · rw [if_pos h1]
    simp [h1]
  · rw [if_neg h1]
    by_cases h2 : pyTruthyStr p.json_text
    · rw [if_pos h2]
      simp [h2]
    · rw [if_neg h2]
      cases fi with
      | none => simp [eq_false_of_ne_true h1, eq_false_of_ne_true h2]
      | some f =>
          constructor
          · intro h
            exfalso
            unfold extractTextFromFile at h
            repeat' split at h
            all_goals simp_all
          · rintro ⟨-, -, hfi⟩
            exact Option.noConfusion hfi

/-- C10: the normalizer treats an empty-string `raw_text` (and
`json_text`) as absent — normalization falls through to the next source
in the precedence order — and the no-text-source failure (HTTP 422) is
raised exactly when `raw_text` and `json_text` are both absent-or-empty
and no file input is supplied. -/
theorem empty_text_source_fallthrough (H : String → String) (R : Readers)
    (p : IngestPayload) (fi : Option FileInput) (did : String) (ts : Int) :
    (docNormalize H R p fi did ts = .error .noSource ↔
      pyTruthyStr p.raw_text = false ∧ pyTruthyStr p.json_text = false ∧
        fi = none) ∧
    docNormalize H R { p with raw_text := some "" } fi did ts =
      docNormalize H R { p with raw_text := none } fi did ts ∧
    docNormalize H R { p with json_text := some "" } fi did ts =
      docNormalize H R { p with json_text := none } fi did ts := by
  refine ⟨⟨?_, ?_⟩, rfl, rfl⟩
  · intro h
    rw [← chooseSource_noSource_iff R p fi]
    unfold docNormalize at h
    cases hcs : chooseSource R p fi with
    | error e =>
        rw [hcs] at h
        cases h
        rfl
    | ok raw =>
        rw [hcs] at h
        dsimp only at h
        by_cases ht : normalize_text raw = ""
        · rw [if_pos ht] at h
          cases h
        · rw [if_neg ht] at h
          exact Except.noConfusion h
  · intro hcond
    have hcs := (chooseSource_noSource_iff R p fi).mpr hcond
    unfold docNormalize
    rw [hcs]

theorem empty_text_source_fallthrough_witness :
    docNormalize hashId zeroReaders payloadC10 none "d" 0 =
      .error .noSource :=
  (empty_text_source_fallthrough hashId zeroReaders payloadC10 none "d" 0).1.mpr
    ⟨rfl, rfl, rfl⟩

/-- C2 (amended): for every similarity, store state, query vector and
`SearchQuery`, the store returns at most `top_k` results, ordered by
descending similarity score; every returned result matches every filter
key/value exactly; when no stored chunk matches the filters the result
is the empty sequence rather than a failure; and `min_score` has no
effect on the result (it is never read, so results below it are NOT
excluded). -/
theorem query_post_processing (sim : List ℚ → List ℚ → ℚ)
    (points : List QdrantPoint) (qvec : List ℚ) (q : SearchQuery) :
    (qdrantQuery sim points qvec q).length ≤ q.top_k ∧
    List.Pairwise (fun a b : SearchResult => b.score ≤ a.score)
      (qdrantQuery sim points qvec q) ∧
    (∀ r ∈ qdrantQuery sim points qvec q, ∀ kv ∈ q.filters,
      ∃ v, dictGet r.metadata kv.1 = some v ∧ pvEq v kv.2 = true) ∧
    ((∀ p ∈ points, matchesFilters p.metadata q.filters = false) →
      qdrantQuery sim points qvec q = []) ∧
    ∀ m, qdrantQuery sim points qvec { q with min_score := m } =
      qdrantQuery sim points qvec q := by
  refine ⟨List.length_take_le _ _, ?_, ?_, ?_, fun m => rfl⟩
  · have htrans : ∀ a b c : SearchResult,
        decide (b.score ≤ a.score) = true → decide (c.score ≤ b.score) = true →
          decide (c.score ≤ a.score) = true := by
      intro a b c hab hbc
      rw [decide_eq_true_eq] at hab hbc ⊢
      exact le_trans hbc hab
    have htot : ∀ a b : SearchResult,
        (decide (b.score ≤ a.score) || decide (a.score ≤ b.score)) = true := by
      intro a b
      rcases le_total b.score a.score with h | h
      · rw [decide_eq_true h, Bool.true_or]
      · rw [decide_eq_true h, Bool.or_true]
    have hs := List.sorted_mergeSort htrans htot
      ((points.filter fun p => matchesFilters p.metadata q.filters).map
        (toResult sim qvec))
    have hp := List.Pairwise.sublist (List.take_sublist q.top_k _) hs
    exact hp.imp fun h => of_decide_eq_true h
  · intro r hr kv hkv
    have h1 : r ∈ ((points.filter fun p =>
        matchesFilters p.metadata q.filters).map (toResult sim qvec)).mergeSort
          (fun a b => decide (b.score ≤ a.score)) :=
      (List.take_sublist q.top_k _).subset hr
    rw [List.mem_mergeSort, List.mem_map] at h1
    obtain ⟨p, hp, rfl⟩ := h1
    rw [List.mem_filter] at hp
    have hall := List.all_eq_true.mp hp.2 kv hkv
    cases hd : dictGet p.metadata kv.1 with
    | none =>
        rw [hd] at hall
        exact Bool.noConfusion hall
    | some v =>
        rw [hd] at hall
        exact ⟨v, hd, hall⟩
  · intro hnone
    unfold qdrantQuery qdrantSearch
    rw [List.filter_eq_nil_iff.mpr
      (fun a ha => by rw [hnone a ha]; exact Bool.false_ne_true)]
    rw [List.map_nil, List.mergeSort_nil, List.take_nil]

/-- C2 counterexample: with `min_score = 1` set in the query, the store
still returns the stored chunk although its similarity score is 0 — the
claim that results below `min_score` are excluded post-ranking is false
on the code, which never reads `min_score`. -/
theorem query_min_score_counterexample :
    ∃ r ∈ qdrantQuery dotQ [ptC2] [0, 1] qC2,
      ∃ m, qC2.min_score = some m ∧ r.score < m := by
  refine ⟨toResult dotQ [0, 1] ptC2, ?_, 1, rfl, ?_⟩
  · have he : qdrantQuery dotQ [ptC2] [0, 1] qC2 =
        [toResult dotQ [0, 1] ptC2] := by
      unfold qdrantQuery qdrantSearch
      rw [show List.filter (fun p => matchesFilters p.metadata qC2.filters) [ptC2] =
          [ptC2] from rfl]
      rw [List.map_singleton, List.mergeSort_singleton]
      rfl
    rw [he]
    exact List.mem_singleton.mpr rfl
  · show dotQ [0, 1] ptC2.vector < 1
    norm_num [dotQ, ptC2]

theorem query_post_processing_witness :
    (qdrantQuery dotQ [ptC2] [0, 1] qC2).length ≤ qC2.top_k ∧
    qdrantQuery dotQ [ptC2] [0, 1] { qC2 with min_score := none } =
      qdrantQuery dotQ [ptC2] [0, 1] qC2 ∧
    qdrantQuery dotQ [ptC2] [0, 1] qFiltered = [] :=
  ⟨(query_post_processing dotQ [ptC2] [0, 1] qC2).1,
   (query_post_processing dotQ [ptC2] [0, 1] qC2).2.2.2.2 none,
   (query_post_processing dotQ [ptC2] [0, 1] qFiltered).2.2.2.1
     (fun p hp => by
       rcases List.mem_singleton.mp hp with rfl
       rfl)⟩

end SemanticCore
